import Mathlib

/-!
Verification of the overture-geocode query-time engine against its
natural-language specification.

The TypeScript sources are shallowly embedded:
* `Stac` models `src/stac.ts` (STAC catalog cache and GERS registry lookup);
* `Worker` models `src/worker.ts` (the D1-backed forward/reverse worker);
* `Sharded` models the R2-shard worker variant (the `handleSearch` with the
  query-length check).

JavaScript numbers appearing only in comparisons (coordinates, areas) are
modelled as rationals; full-text relevance scores, which flow through a
logarithm, are modelled as reals.  JavaScript strings are modelled as lists
of characters ordered lexicographically by code point (Mathlib's linear
order on `List Char`), which agrees with the JS `<`/`>=` code-unit order on
the BMP strings used here; `String.prototype.toLowerCase`/`toUpperCase`
are modelled by the basic-latin `Char.toLower`/`Char.toUpper` maps (GERS
identifiers are ASCII hex strings).
-/

set_option maxRecDepth 4000

namespace Geocode

/-- A JavaScript string, as a list of its characters. -/
abbrev JsStr := List Char

/-- Characters of a Lean string literal, for writing `JsStr` constants. -/
def str (s : String) : JsStr := s.data

/-- JS `String.prototype.toLowerCase`, restricted to basic latin. -/
def jsToLower (s : JsStr) : JsStr := s.map Char.toLower

/-- JS `String.prototype.toUpperCase`, restricted to basic latin. -/
def jsToUpper (s : JsStr) : JsStr := s.map Char.toUpper

namespace Stac

/-- A link of the STAC catalog (`interface StacLink` in `src/stac.ts`). -/
structure StacLink where
  rel : JsStr
  href : JsStr
  type? : Option JsStr
  title? : Option JsStr
  latest : Option Bool
deriving DecidableEq

/-- The GERS registry: a path and a manifest of `[filename, max_id]` pairs
(`interface GersRegistry` in `src/stac.ts`). -/
structure GersRegistry where
  path : JsStr
  manifest : List (JsStr × JsStr)
deriving DecidableEq

/-- The STAC catalog document (`interface StacCatalog` in `src/stac.ts`). -/
structure StacCatalog where
  id : JsStr
  type : JsStr
  title? : Option JsStr
  description? : Option JsStr
  links : List StacLink
  registry : Option GersRegistry
deriving DecidableEq

/-- One fuelled unfolding of the `while (left < right)` bisection loop of
`findRegistryFile` (`src/stac.ts` lines 116-123).  Each iteration shrinks
`right - left` by at least one, so `right - left` units of fuel reproduce
the loop exactly (`bsearchLoop`); the fuel only makes the recursion
structural so the search stays kernel-computable.  Out-of-range accesses
(which the JS code never performs) default to the empty entry. -/
def bsearchGo (manifest : List (JsStr × JsStr)) (id : JsStr) :
    Nat → Nat → Nat → Nat
  | 0, left, _ => left
  | fuel + 1, left, right =>
    if left < right then
      -- const mid = Math.floor((left + right) / 2), inlined
      if (manifest.getD ((left + right) / 2) ([], [])).2 < id then
        bsearchGo manifest id fuel ((left + right) / 2 + 1) right
      else
        bsearchGo manifest id fuel left ((left + right) / 2)
    else
      left

/-- The bisection loop of `findRegistryFile`: narrow `[left, right]` to the
first index whose `max_id` bound is not below `id`. -/
def bsearchLoop (manifest : List (JsStr × JsStr)) (id : JsStr)
    (left right : Nat) : Nat :=
  bsearchGo manifest id (right - left) left right

/-- Embedding of `findRegistryFile` from `src/stac.ts` (lines 106-127): binary search the
manifest, sorted by `max_id`, for the first file whose `max_id` is `>=` the
lowercased GERS id; `null` when the manifest is empty or the id exceeds
every bound. -/
def findRegistryFile (manifest : List (JsStr × JsStr)) (gersId : JsStr) :
    Option JsStr :=
  if manifest.length = 0 then none
  else
    let id := jsToLower gersId
    let left := bsearchLoop manifest id 0 (manifest.length - 1)
    if id ≤ (manifest.getD left ([], [])).2 then
      some (manifest.getD left ([], [])).1
    else
      none

/-- The observable behaviour of one `getStacCatalog` call: the value
returned (or error thrown), and whether the call performed the network
fetch. -/
structure CatalogCall where
  result : Except JsStr StacCatalog
  fetched : Bool

/-- Embedding of `getStacCatalog` from `src/stac.ts` (lines 54-66), as an explicit state
transformer on the module-level `catalogCache`.  `fetchOutcome` stands for
what `fetchFn(STAC_CATALOG_URL)` followed by `response.json()` would
produce on this call: the parsed catalog for an ok response, or the
`Failed to fetch STAC catalog` error thrown for a non-ok one.  When the
cache is populated the fetch is not performed at all. -/
def getStacCatalog (fetchOutcome : Except JsStr StacCatalog)
    (cache : Option StacCatalog) : CatalogCall × Option StacCatalog :=
  match cache with
  | some c => (⟨Except.ok c, false⟩, some c)
  | none =>
    match fetchOutcome with
    | Except.ok c => (⟨Except.ok c, true⟩, some c)
    | Except.error e => (⟨Except.error e, true⟩, none)

/-- Embedding of `clearCatalogCache` from `src/stac.ts` (lines 71-73). -/
def clearCatalogCache (_cache : Option StacCatalog) : Option StacCatalog :=
  none

/-- A sequence of `getStacCatalog` calls, threading the cache;
`fs` lists the would-be fetch outcome of each call. -/
def runCatalogCalls (fs : List (Except JsStr StacCatalog))
    (cache : Option StacCatalog) :
    List CatalogCall × Option StacCatalog :=
  match fs with
  | [] => ([], cache)
  | f :: rest =>
    let step := getStacCatalog f cache
    let restRun := runCatalogCalls rest step.2
    (step.1 :: restRun.1, restRun.2)

end Stac

/-!
### Query normalization (`prepareFtsQuery`)

`src/worker.ts` (lines 89-109) and the R2-shard worker define the same
`prepareFtsQuery`.  The JS Unicode classes `\p{L}`/`\p{N}`/`\s` are
modelled by `Char.isAlpha`/`Char.isDigit`/`Char.isWhitespace`
(their ASCII restrictions).
-/

/-- A character kept by `.replace(/[^\p{L}\p{N}\s-]/gu, " ")`. -/
def keepChar (c : Char) : Bool :=
  c.isAlpha || c.isDigit || c.isWhitespace || c = '-'

/-- The step `.replace(/[^\p{L}\p{N}\s-]/gu, " ")`: punctuation becomes a space. -/
def stripPunct (s : JsStr) : JsStr :=
  s.map (fun c => if keepChar c then c else ' ')

/-- The step `.replace(/\s+/g, " ")`: each maximal whitespace run becomes one
space.  `prev` records whether the previous character was part of a run. -/
def collapseWs : JsStr → Bool → JsStr
  | [], _ => []
  | c :: cs, prev =>
    if c.isWhitespace then
      if prev then collapseWs cs true else ' ' :: collapseWs cs true
    else
      c :: collapseWs cs false

/-- JS `String.prototype.trim`: drop whitespace from both ends. -/
def trimWs (s : JsStr) : JsStr :=
  ((s.dropWhile Char.isWhitespace).reverse.dropWhile Char.isWhitespace).reverse

/-- Accumulator loop for `split(" ")`. -/
def splitOnSpaceGo : JsStr → JsStr → List JsStr
  | [], acc => [acc.reverse]
  | c :: cs, acc =>
    if c = ' ' then acc.reverse :: splitOnSpaceGo cs []
    else splitOnSpaceGo cs (c :: acc)

/-- JS `split(" ")` (splitting on single spaces; `"".split(" ")` is
`[""]`, exactly as in JS). -/
def splitOnSpace (s : JsStr) : List JsStr := splitOnSpaceGo s []

/-- The token list of `prepareFtsQuery`: lowercase, strip punctuation,
collapse whitespace, trim, split on spaces, drop empty tokens. -/
def prepareFtsTokens (query : JsStr) : List JsStr :=
  (splitOnSpace (trimWs (collapseWs (stripPunct (jsToLower query)) false))).filter
    (fun t => t.length > 0)

/-- Wrap a token in double quotes for FTS5 exact matching. -/
def quoteToken (t : JsStr) : JsStr := '"' :: (t ++ [ '"' ])

/-- Embedding of `prepareFtsQuery` from `src/worker.ts` lines 89-109: empty string when
no token survives; otherwise the quoted tokens joined by spaces, the last
one getting a `*` wildcard suffix in autocomplete mode. -/
def prepareFtsQuery (query : JsStr) (autocomplete : Bool) : JsStr :=
  let tokens := prepareFtsTokens query
  if tokens.length = 0 then []
  else
    List.intercalate (str " ")
      (tokens.mapIdx (fun i t =>
        if autocomplete && i = tokens.length - 1 then quoteToken t ++ [ '*' ]
        else quoteToken t))

namespace Worker

/-- A row of the `divisions` D1 query of `searchDivisions`
(`interface DivisionRow` in `src/worker.ts`).  `bm25` stands for the
`bm25(divisions_fts)` relevance that the FTS5 engine reports for this row
on the current query; `boosted_score` is the column computed from it by
the SQL `CASE` (constrained to `boostedScore bm25 population` in the
theorems below). -/
structure DivisionRow where
  rowid : Nat
  gers_id : JsStr
  type : JsStr
  primary_name : JsStr
  lat : ℚ
  lon : ℚ
  bbox_xmin : ℚ
  bbox_ymin : ℚ
  bbox_xmax : ℚ
  bbox_ymax : ℚ
  population : Option Nat
  country : Option JsStr
  region : Option JsStr
  bm25 : ℝ
  boosted_score : ℝ

/-- The SQL `CASE` of `searchDivisions` (`src/worker.ts` lines 142-146):
`bm25(divisions_fts) - (LOG(population + 1) * 2.0)` when a population is
present, else `bm25(divisions_fts) - 2.0`.  SQLite's `LOG` is the base-10
logarithm. -/
noncomputable def boostedScore (base : ℝ) (population : Option Nat) : ℝ :=
  match population with
  | some p => base - Real.logb 10 ((p : ℝ) + 1) * 2
  | none => base - 2

/-- A forward-geocoding result (`interface GeocoderResult` in
`src/worker.ts`). -/
structure GeocoderResult where
  gers_id : JsStr
  primary_name : JsStr
  lat : ℚ
  lon : ℚ
  boundingbox : List ℚ
  importance : ℝ
  type : JsStr

/-- The result-row mapping of `searchDivisions` (`src/worker.ts` lines
156-166).  Note the `boundingbox` component order used by the source:
`[bbox_ymin, bbox_ymax, bbox_xmin, bbox_xmax]`. -/
noncomputable def rowToResult (row : DivisionRow) : GeocoderResult :=
  { gers_id := row.gers_id
    primary_name := row.primary_name
    lat := row.lat
    lon := row.lon
    boundingbox := [row.bbox_ymin, row.bbox_ymax, row.bbox_xmin, row.bbox_xmax]
    importance := max 0 (min 1 (-row.boosted_score / 50))
    type := row.type }

/-- The D1 database handle, abstracted to the query `searchDivisions`
issues: given the FTS match string and the limit, return rows or throw. -/
abbrev DbQuery := JsStr → Nat → Except JsStr (List DivisionRow)

/-- What one `searchDivisions` call produced and whether it reached
storage (ran the D1 statement). -/
structure SearchOutcome where
  results : List GeocoderResult
  storageQueried : Bool

/-- Embedding of `searchDivisions` from `src/worker.ts` (lines 114-171): no database or
an empty FTS query short-circuit to an empty result list without touching
storage; otherwise the D1 query runs and its rows are mapped to
results (a thrown D1 error is rethrown). -/
noncomputable def searchDivisions (db : Option DbQuery) (query : JsStr)
    (limit : Nat) (autocomplete : Bool) : Except JsStr SearchOutcome :=
  match db with
  | none => Except.ok ⟨[], false⟩
  | some dbq =>
    let fts := prepareFtsQuery query autocomplete
    if fts = [] then Except.ok ⟨[], false⟩
    else
      match dbq fts limit with
      | Except.ok rows => Except.ok ⟨rows.map rowToResult, true⟩
      | Except.error e => Except.error e

/-- An HTTP response of the `/search` handler: status, JSON list payload
(`none` for an error payload), and whether storage was reached. -/
structure SearchResponse where
  status : Nat
  body : Option (List GeocoderResult)
  storageQueried : Bool

/-- Embedding of `handleSearch` from `src/worker.ts` (lines 335-385), after query-string
parsing: a whitespace-only `q` returns `200 []` immediately; otherwise
`searchDivisions` runs, a thrown error becoming a 500.  (The
`format=geojson` branch reshapes the same result list and is omitted.)
There is no query-length check in this handler. -/
noncomputable def handleSearch (db : Option DbQuery) (q : JsStr)
    (limit : Nat) (autocomplete : Bool) : SearchResponse :=
  if trimWs q = [] then ⟨200, some [], false⟩
  else
    match searchDivisions db q limit autocomplete with
    | Except.ok out => ⟨200, some out.results, out.storageQueried⟩
    | Except.error _ => ⟨500, none, true⟩

/-- A row of the `divisions_reverse` query (`interface DivisionReverseRow`
in `src/worker.ts`). -/
structure DivisionReverseRow where
  gers_id : JsStr
  subtype : JsStr
  primary_name : JsStr
  lat : ℚ
  lon : ℚ
  bbox_xmin : ℚ
  bbox_ymin : ℚ
  bbox_xmax : ℚ
  bbox_ymax : ℚ
  area : ℚ
  population : Option Nat
  country : Option JsStr
  region : Option JsStr
deriving DecidableEq

/-- A hierarchy entry (`interface HierarchyEntry` in `src/worker.ts`). -/
structure HierarchyEntry where
  gers_id : JsStr
  subtype : JsStr
  name : JsStr
deriving DecidableEq

/-- The lookup `TYPE_PRIORITY[subtype] || 0` from `src/worker.ts` (lines 196-204):
subtype specificity, unknown subtypes getting 0. -/
def TYPE_PRIORITY (subtype : JsStr) : Nat :=
  if subtype = str "neighborhood" then 1
  else if subtype = str "macrohood" then 2
  else if subtype = str "locality" then 3
  else if subtype = str "localadmin" then 4
  else if subtype = str "county" then 5
  else if subtype = str "region" then 6
  else if subtype = str "country" then 7
  else 0

/-- The `seenSubtypes`-set filter of `buildHierarchyForDivision`
(`src/worker.ts` lines 219-226): keep the first occurrence of each
subtype. -/
def dedupBySubtype : List DivisionReverseRow → List JsStr →
    List DivisionReverseRow
  | [], _ => []
  | d :: rest, seen =>
    if d.subtype ∈ seen then dedupBySubtype rest seen
    else d :: dedupBySubtype rest (d.subtype :: seen)

/-- The hierarchy-entry projection of `buildHierarchyForDivision`
(`src/worker.ts` lines 230-234). -/
def rowToEntry (div : DivisionReverseRow) : HierarchyEntry :=
  ⟨div.gers_id, div.subtype, div.primary_name⟩

/-- Stable insertion into a priority-sorted list: the inserted element
goes before the first element of priority not below its own, so earlier
elements keep their relative order among equal priorities. -/
def insertByPriority (d : DivisionReverseRow) :
    List DivisionReverseRow → List DivisionReverseRow
  | [] => [d]
  | e :: rest =>
    if TYPE_PRIORITY e.subtype < TYPE_PRIORITY d.subtype then
      e :: insertByPriority d rest
    else
      d :: e :: rest

/-- JS `Array.prototype.sort` with comparator
`(a, b) => TYPE_PRIORITY[a.subtype] - TYPE_PRIORITY[b.subtype]`: a stable
ascending sort by priority, modelled as a stable insertion sort. -/
def sortByPriority : List DivisionReverseRow → List DivisionReverseRow
  | [] => []
  | d :: rest => insertByPriority d (sortByPriority rest)

/-- Embedding of `buildHierarchyForDivision` from `src/worker.ts` (lines 211-235):
keep the candidates with `area >= currentDiv.area`, deduplicate by
subtype keeping first occurrences, sort ascending by `TYPE_PRIORITY`
(JS stable `sort` with comparator `pri a - pri b`), and project to
hierarchy entries. -/
def buildHierarchyForDivision (currentDiv : DivisionReverseRow)
    (allCandidates : List DivisionReverseRow) : List HierarchyEntry :=
  let containing :=
    allCandidates.filter (fun div => decide (div.area ≥ currentDiv.area))
  let deduped := dedupBySubtype containing []
  (sortByPriority deduped).map rowToEntry

/-- JS `Math.atan2`, modelled by the complex argument (which agrees with
`atan2 y x` for all sign combinations). -/
noncomputable def atan2 (y x : ℝ) : ℝ := Complex.arg ⟨x, y⟩

/-- Embedding of `haversineDistance` from `src/worker.ts` (lines 176-193). -/
noncomputable def haversineDistance (lat1 lon1 lat2 lon2 : ℝ) : ℝ :=
  let dLat := (lat2 - lat1) * Real.pi / 180
  let dLon := (lon2 - lon1) * Real.pi / 180
  let a :=
    Real.sin (dLat / 2) * Real.sin (dLat / 2) +
      Real.cos (lat1 * Real.pi / 180) * Real.cos (lat2 * Real.pi / 180) *
        Real.sin (dLon / 2) * Real.sin (dLon / 2)
  let c := 2 * atan2 (Real.sqrt a) (Real.sqrt (1 - a))
  6371 * c

/-- A reverse-geocoding result (`interface ReverseGeocoderResult` in
`src/worker.ts`). -/
structure ReverseGeocoderResult where
  gers_id : JsStr
  primary_name : JsStr
  subtype : JsStr
  lat : ℚ
  lon : ℚ
  boundingbox : List ℚ
  distance_km : ℝ
  confidence : JsStr
  hierarchy : List HierarchyEntry

/-- The per-candidate result construction of `handleReverse`
(`src/worker.ts` lines 290-300); `Math.round(d * 100) / 100` is modelled
by Mathlib's `round` (also round-half-up). -/
noncomputable def rowToReverseResult (lat lon : ℚ) (div : DivisionReverseRow)
    (candidates : List DivisionReverseRow) : ReverseGeocoderResult :=
  { gers_id := div.gers_id
    primary_name := div.primary_name
    subtype := div.subtype
    lat := div.lat
    lon := div.lon
    boundingbox := [div.bbox_ymin, div.bbox_ymax, div.bbox_xmin, div.bbox_xmax]
    distance_km :=
      (round (haversineDistance (lat : ℝ) (lon : ℝ) (div.lat : ℝ)
        (div.lon : ℝ) * 100) : ℝ) / 100
    confidence := str "bbox"
    hierarchy := buildHierarchyForDivision div candidates }

/-- The reverse D1 database, abstracted to the bbox-containment query
`handleReverse` issues for a coordinate pair (`ORDER BY area ASC
LIMIT 50`). -/
abbrev ReverseDb := ℚ → ℚ → Except JsStr (List DivisionReverseRow)

/-- An HTTP response of the `/reverse` handler. -/
structure ReverseResponse where
  status : Nat
  body : Option (List ReverseGeocoderResult)
  storageQueried : Bool

/-- Embedding of `handleReverse` from `src/worker.ts` (lines 241-330), after parameter
parsing: `none` stands for a missing or non-numeric `lat`/`lon` parameter
(`parseFloat` produced `NaN`).  Validation runs before any storage
access; an absent reverse database yields 503; a thrown D1 error yields
500.  (The `format=geojson` branch reshapes the same results and is
omitted.) -/
noncomputable def handleReverse (lat lon : Option ℚ) (db : Option ReverseDb) :
    ReverseResponse :=
  match lat, lon with
  | none, _ => ⟨400, none, false⟩
  | some _, none => ⟨400, none, false⟩
  | some la, some lo =>
    if la < -90 ∨ la > 90 ∨ lo < -180 ∨ lo > 180 then ⟨400, none, false⟩
    else
      match db with
      | none => ⟨503, none, false⟩
      | some dbq =>
        match dbq la lo with
        | Except.ok candidates =>
          if candidates.length = 0 then ⟨200, some [], true⟩
          else
            ⟨200,
              some (candidates.map
                (fun div => rowToReverseResult la lo div candidates)), true⟩
        | Except.error _ => ⟨500, none, true⟩

end Worker

namespace Sharded

/-- An HTTP response of the R2-shard worker's `/search` handler: status
and whether storage (catalog, shard items, shard payloads) was reached. -/
structure ShardedResponse where
  status : Nat
  storageQueried : Bool

/-- Embedding of `handleSearch` of the R2-shard worker variant, after parameter
parsing.  The `try` block (sql.js init, `loadLatestVersion`, shard loads,
`searchShard`, dedup/bias/sort/slice, formatting) is abstracted as
`pipeline`, mapping the FTS query to the final response status; every
path through it begins with a storage read (`loadLatestVersion`), so
reaching it sets `storageQueried`.  The validation order is the
source's: whitespace-only query → `200 {results: []}`; then
`q.length > 200` → `400 Query too long`; then an empty FTS query →
`200 {results: []}`. -/
def handleSearch (pipeline : JsStr → Nat) (q : JsStr) (autocomplete : Bool) :
    ShardedResponse :=
  if trimWs q = [] then ⟨200, false⟩
  else if 200 < q.length then ⟨400, false⟩
  else
    let fts := prepareFtsQuery q autocomplete
    if fts = [] then ⟨200, false⟩
    else ⟨pipeline fts, true⟩

end Sharded

/-! ### Concrete inputs for witnesses and counterexamples -/

/-- A concrete catalog used by the cache-lifecycle witness. -/
def Stac.exCatalog : Stac.StacCatalog :=
  ⟨str "overturemaps", str "Catalog", none, none, [], none⟩

/-- A division row with four distinct bounding-box coordinates. -/
noncomputable def Worker.cexRow : Worker.DivisionRow :=
  ⟨1, str "r1", str "locality", str "Boston", 42 + 1/3, -71 + 1/2,
    -71, 42, -70, 43, some 650000, some (str "US"), some (str "US-MA"), 0, 0⟩

/-- A D1 database stub whose query succeeds with no rows. -/
def Worker.exDb : Worker.DbQuery := fun _ _ => Except.ok []

/-- A 201-character query string. -/
def longQ : JsStr := List.replicate 201 'a'

/-- Equal-relevance row with population 0 (boosted score `0 - log10(1)*2 = 0`). -/
noncomputable def Worker.wRowPop0 : Worker.DivisionRow :=
  ⟨1, str "a", str "locality", str "A", 0, 0, 0, 0, 0, 0,
    some 0, none, none, 0, 0⟩

/-- Equal-relevance row with population 9 (boosted score `0 - log10(10)*2 = -2`). -/
noncomputable def Worker.wRowPop9 : Worker.DivisionRow :=
  ⟨2, str "b", str "locality", str "B", 0, 0, 0, 0, 0, 0,
    some 9, none, none, 0, -2⟩

/-- Small-area member of a same-subtype candidate pair. -/
def Worker.cexSmall : Worker.DivisionReverseRow :=
  ⟨str "d1", str "locality", str "Smallville", 0, 0, 0, 0, 1, 1, 1,
    none, none, none⟩

/-- Large-area member of a same-subtype candidate pair. -/
def Worker.cexBig : Worker.DivisionReverseRow :=
  ⟨str "d2", str "locality", str "Bigtown", 0, 0, 0, 0, 2, 1, 2,
    none, none, none⟩

/-! ### Theorems: registry lookup -/

namespace Stac

lemma bsearchGo_bounds (m : List (JsStr × JsStr)) (id : JsStr) :
    ∀ (fuel left right : Nat), left ≤ right →
      left ≤ bsearchGo m id fuel left right ∧
      bsearchGo m id fuel left right ≤ right := by
  intro fuel
  induction fuel with
  | zero => intro l r h; simp [bsearchGo, h]
  | succ fuel ih =>
    intro l r h
    simp only [bsearchGo]
    by_cases hlr : l < r
    · rw [if_pos hlr]
      by_cases hb : (m.getD ((l + r) / 2) ([], [])).2 < id
      · rw [if_pos hb]
        have := ih ((l + r) / 2 + 1) r (by omega)
        omega
      · rw [if_neg hb]
        have := ih l ((l + r) / 2) (by omega)
        omega
    · rw [if_neg hlr]
      exact ⟨le_refl _, h⟩

lemma bsearchGo_before_lt (m : List (JsStr × JsStr)) (id : JsStr)
    (hsort : m.Pairwise (fun a b => a.2 ≤ b.2)) :
    ∀ (fuel left right : Nat), right - left ≤ fuel → left ≤ right →
      right < m.length →
      ∀ j, left ≤ j → j < bsearchGo m id fuel left right →
        (m.getD j ([], [])).2 < id := by
  have hmono : ∀ (i j : Nat), i ≤ j → j < m.length →
      (m.getD i ([], [])).2 ≤ (m.getD j ([], [])).2 := by
    intro i j hij hj
    have hi : i < m.length := lt_of_le_of_lt hij hj
    rw [List.getD_eq_getElem m _ hi, List.getD_eq_getElem m _ hj]
    rcases Nat.lt_or_ge i j with hlt | hge
    · exact (List.pairwise_iff_getElem.mp hsort) i j hi hj hlt
    · have : i = j := le_antisymm hij hge
      subst this
      exact le_refl _
  intro fuel
  induction fuel with
  | zero =>
    intro l r hfuel hlr _ j hlj hjlt
    simp only [bsearchGo] at hjlt
    omega
  | succ fuel ih =>
    intro l r hfuel hlr hrlen j hlj hjlt
    simp only [bsearchGo] at hjlt
    by_cases hlr' : l < r
    · rw [if_pos hlr'] at hjlt
      by_cases hb : (m.getD ((l + r) / 2) ([], [])).2 < id
      · rw [if_pos hb] at hjlt
        rcases Nat.lt_or_ge j ((l + r) / 2 + 1) with hsmall | hbig
        · exact lt_of_le_of_lt (hmono j ((l + r) / 2) (by omega) (by omega)) hb
        · exact ih ((l + r) / 2 + 1) r (by omega) (by omega) hrlen j hbig hjlt
      · rw [if_neg hb] at hjlt
        exact ih l ((l + r) / 2) (by omega) (by omega) (by omega) j hlj hjlt
    · rw [if_neg hlr'] at hjlt
      omega

lemma bsearchGo_eq_right (m : List (JsStr × JsStr)) (id : JsStr) :
    ∀ (fuel left right : Nat), right - left ≤ fuel → left ≤ right →
      (m.getD (bsearchGo m id fuel left right) ([], [])).2 < id →
      bsearchGo m id fuel left right = right := by
  intro fuel
  induction fuel with
  | zero =>
    intro l r hfuel hlr _
    simp only [bsearchGo]
    omega
  | succ fuel ih =>
    intro l r hfuel hlr hres
    simp only [bsearchGo] at hres ⊢
    by_cases hlr' : l < r
    · rw [if_pos hlr'] at hres ⊢
      by_cases hb : (m.getD ((l + r) / 2) ([], [])).2 < id
      · rw [if_pos hb] at hres ⊢
        exact ih ((l + r) / 2 + 1) r (by omega) (by omega) hres
      · rw [if_neg hb] at hres ⊢
        have heq := ih l ((l + r) / 2) (by omega) (by omega) hres
        rw [heq] at hres
        exact absurd hres hb
    · rw [if_neg hlr'] at hres ⊢
      omega

lemma find?_eq_some_of_first {α : Type} (l : List α) (pred : α → Bool) :
    ∀ (i : Nat) (hi : i < l.length),
      (∀ j (hj : j < l.length), j < i → pred (l.get ⟨j, hj⟩) = false) →
      pred (l.get ⟨i, hi⟩) = true → l.find? pred = some (l.get ⟨i, hi⟩) := by
  induction l with
  | nil => intro i hi; simp at hi
  | cons a t ih =>
    intro i hi hbefore hat
    cases i with
    | zero =>
      simpa using List.find?_cons_of_pos (p := pred) t (by simpa using hat)
    | succ i =>
      have ha : pred a = false := by
        simpa using hbefore 0 (by simp) (Nat.succ_pos i)
      rw [List.find?_cons_of_neg _ (by simp [ha])]
      have hi' : i < t.length := by simpa using hi
      have harg : ∀ j (hj : j < t.length), j < i → pred (t.get ⟨j, hj⟩) = false := by
        intro j hj hji
        have := hbefore (j + 1) (by simpa using Nat.succ_lt_succ hj)
          (Nat.succ_lt_succ hji)
        simpa using this
      have := ih i hi' harg (by simpa using hat)
      simpa using this

/-- C1: for every manifest sorted ascending by bound and every identifier,
`findRegistryFile` returns the filename of the leftmost manifest entry
whose bound is `>=` the lowercase form of the identifier when such an
entry exists, and `null` otherwise — in particular `null` when the
identifier exceeds every bound and on the empty manifest. -/
theorem findRegistryFile_leftmost (manifest : List (JsStr × JsStr))
    (gersId : JsStr)
    (hsort : manifest.Pairwise (fun a b => a.2 ≤ b.2)) :
    findRegistryFile manifest gersId =
      (manifest.find? (fun e => decide (jsToLower gersId ≤ e.2))).map
        (fun e => e.1) := by
  by_cases hlen : manifest.length = 0
  · have hnil : manifest = [] := List.length_eq_zero.mp hlen
    subst hnil
    simp [findRegistryFile]
  · have hpos : 0 < manifest.length := Nat.pos_of_ne_zero hlen
    simp only [findRegistryFile, bsearchLoop, if_neg hlen]
    set id := jsToLower gersId with hid
    set p := bsearchGo manifest id (manifest.length - 1 - 0) 0
      (manifest.length - 1) with hp
    have hbounds := bsearchGo_bounds manifest id (manifest.length - 1 - 0) 0
      (manifest.length - 1) (Nat.zero_le _)
    have hplen : p < manifest.length := by omega
    by_cases hle : id ≤ (manifest.getD p ([], [])).2
    · rw [if_pos hle]
      have hfind := find?_eq_some_of_first manifest
        (fun e => decide (id ≤ e.2)) p hplen ?_ ?_
      · rw [hfind]
        simp only [Option.map_some']
        rw [List.getD_eq_getElem manifest ([], []) hplen]
        simp [List.get_eq_getElem]
      · intro j hj hjp
        have hlt := bsearchGo_before_lt manifest id hsort
          (manifest.length - 1 - 0) 0 (manifest.length - 1) (le_refl _)
          (Nat.zero_le _) (by omega) j (Nat.zero_le _) hjp
        rw [List.getD_eq_getElem manifest ([], []) hj] at hlt
        simp only [List.get_eq_getElem, decide_eq_false_iff_not]
        exact not_le.mpr hlt
      · rw [List.getD_eq_getElem manifest ([], []) hplen] at hle
        simp only [List.get_eq_getElem, decide_eq_true_eq]
        exact hle
    · rw [if_neg hle]
      have hplt : (manifest.getD p ([], [])).2 < id := not_le.mp hle
      have hpr : p = manifest.length - 1 :=
        bsearchGo_eq_right manifest id (manifest.length - 1 - 0) 0
          (manifest.length - 1) (le_refl _) (Nat.zero_le _) hplt
      have hall : manifest.find? (fun e => decide (id ≤ e.2)) = none := by
        rw [List.find?_eq_none]
        intro x hx
        rcases List.mem_iff_getElem.mp hx with ⟨j, hj, rfl⟩
        simp only [decide_eq_true_eq]
        have hjlt : (manifest.getD j ([], [])).2 < id := by
          rcases Nat.lt_or_ge j (manifest.length - 1) with hsmall | hbig
          · exact bsearchGo_before_lt manifest id hsort
              (manifest.length - 1 - 0) 0 (manifest.length - 1) (le_refl _)
              (Nat.zero_le _) (by omega) j (Nat.zero_le _) (by omega)
          · have : j = manifest.length - 1 := by omega
            rw [this, ← hpr]
            exact hplt
        rw [List.getD_eq_getElem manifest ([], []) hj] at hjlt
        exact not_le.mpr hjlt
      rw [hall]
      simp

lemma toNat_ofNat_lt (n : Nat) (h : n < 55296) : (Char.ofNat n).toNat = n := by
  have hv : n.isValidChar := Or.inl h
  rw [Char.ofNat, dif_pos hv]
  simp [Char.ofNatAux, Char.toNat, UInt32.toNat]

lemma toLower_toUpper (c : Char) : c.toUpper.toLower = c.toLower := by
  by_cases h : c.toNat ≥ 97 ∧ c.toNat ≤ 122
  · have hup : c.toUpper = Char.ofNat (c.toNat - 32) := by
      rw [Char.toUpper, if_pos h]
    have hm : (Char.ofNat (c.toNat - 32)).toNat = c.toNat - 32 :=
      toNat_ofNat_lt _ (by omega)
    have hlo : c.toLower = c := by
      rw [Char.toLower, if_neg (by omega)]
    rw [hup, hlo, Char.toLower, if_pos (by omega)]
    rw [hm]
    have h32 : c.toNat - 32 + 32 = c.toNat := by omega
    rw [h32, Char.ofNat_toNat]
  · have hup : c.toUpper = c := by
      rw [Char.toUpper, if_neg h]
    rw [hup]

lemma jsToLower_jsToUpper (s : JsStr) : jsToLower (jsToUpper s) = jsToLower s := by
  simp only [jsToLower, jsToUpper, List.map_map]
  exact List.map_congr_left (fun c _ => toLower_toUpper c)

/-- C9: `findRegistryFile` returns the same result for an identifier and
for its uppercase form, on every manifest. -/
theorem findRegistryFile_case_insensitive (manifest : List (JsStr × JsStr))
    (gersId : JsStr) :
    findRegistryFile manifest (jsToUpper gersId) =
      findRegistryFile manifest gersId := by
  simp only [findRegistryFile, bsearchLoop, jsToLower_jsToUpper]

/-- C8: after one successful `getStacCatalog` call, every subsequent call
returns the same cached catalog without fetching and leaves the cache
unchanged, and once `clearCatalogCache` runs, the next call fetches
again. -/
theorem getStacCatalog_cache_lifecycle (f : Except JsStr StacCatalog)
    (cache : Option StacCatalog) (c : StacCatalog)
    (hok : (getStacCatalog f cache).1.result = Except.ok c) :
    (∀ fs, runCatalogCalls fs (getStacCatalog f cache).2 =
      (fs.map (fun _ => ⟨Except.ok c, false⟩), (getStacCatalog f cache).2)) ∧
    (∀ f', (getStacCatalog f'
      (clearCatalogCache (getStacCatalog f cache).2)).1.fetched = true) := by
  have hcache : (getStacCatalog f cache).2 = some c := by
    cases cache with
    | some c0 =>
      simp only [getStacCatalog] at hok ⊢
      rw [Except.ok.injEq] at hok
      rw [hok]
    | none =>
      cases f with
      | ok c1 =>
        simp only [getStacCatalog] at hok ⊢
        rw [Except.ok.injEq] at hok
        rw [hok]
      | error e =>
        simp [getStacCatalog] at hok
  constructor
  · intro fs
    rw [hcache]
    induction fs with
    | nil => simp [runCatalogCalls]
    | cons f' rest ih => simp [runCatalogCalls, getStacCatalog, ih]
  · intro f'
    rw [hcache]
    cases f' <;> simp [getStacCatalog, clearCatalogCache]

/-- Witness for C8 at a concrete catalog: a successful first call, a
no-fetch cached second call, and a re-fetching call after the cache is
cleared. -/
theorem getStacCatalog_cache_lifecycle_witness :
    (getStacCatalog (Except.ok exCatalog) none).1.result =
        Except.ok exCatalog ∧
    runCatalogCalls [Except.error (str "boom")]
        (getStacCatalog (Except.ok exCatalog) none).2 =
      ([⟨Except.ok exCatalog, false⟩],
        (getStacCatalog (Except.ok exCatalog) none).2) ∧
    (getStacCatalog (Except.error (str "boom"))
        (clearCatalogCache
          (getStacCatalog (Except.ok exCatalog) none).2)).1.fetched = true :=
  ⟨rfl,
    (getStacCatalog_cache_lifecycle (Except.ok exCatalog) none exCatalog
      rfl).1 [Except.error (str "boom")],
    (getStacCatalog_cache_lifecycle (Except.ok exCatalog) none exCatalog
      rfl).2 (Except.error (str "boom"))⟩

/-- The concrete registry lookups of the specification's example
manifest, checked by evaluation. -/
theorem findRegistryFile_concrete_checks :
    findRegistryFile [(str "a.part", str "0fff"), (str "b.part", str "1fff")]
        (str "0500") = some (str "a.part") ∧
    findRegistryFile [(str "a.part", str "0fff"), (str "b.part", str "1fff")]
        (str "1fff") = some (str "b.part") ∧
    findRegistryFile [(str "a.part", str "0fff"), (str "b.part", str "1fff")]
        (str "2000") = none ∧
    findRegistryFile [] (str "0500") = none := by
  refine ⟨by decide, by decide, by decide, by decide⟩

/-- Witness for C1: the manifest and lookups of the spec's concrete
registry-lookup example satisfy the theorem's sortedness hypothesis. -/
theorem findRegistryFile_leftmost_witness :
    ([(str "a.part", str "0fff"), (str "b.part", str "1fff")] :
        List (JsStr × JsStr)).Pairwise (fun a b => a.2 ≤ b.2) ∧
    findRegistryFile [(str "a.part", str "0fff"), (str "b.part", str "1fff")]
        (str "05AB") =
      (([(str "a.part", str "0fff"), (str "b.part", str "1fff")] :
          List (JsStr × JsStr)).find?
        (fun e => decide (jsToLower (str "05AB") ≤ e.2))).map (fun e => e.1) :=
  ⟨by decide,
    findRegistryFile_leftmost
      [(str "a.part", str "0fff"), (str "b.part", str "1fff")]
      (str "05AB") (by decide)⟩

end Stac

/-! ### Theorems: forward search -/

namespace Worker

/-- C6: a query that normalizes to zero tokens (empty, whitespace-only or
punctuation-only) makes `searchDivisions` return an empty result list
successfully, without running the storage query and without an error. -/
theorem searchDivisions_empty_tokens (db : Option DbQuery) (q : JsStr)
    (limit : Nat) (ac : Bool) (h : prepareFtsTokens q = []) :
    searchDivisions db q limit ac = Except.ok ⟨[], false⟩ := by
  cases db with
  | none => rfl
  | some dbq => simp [searchDivisions, prepareFtsQuery, h]

/-- Witness for C6: the punctuation-only query `"?!,"` normalizes to zero
tokens and short-circuits to an empty successful result. -/
theorem searchDivisions_empty_tokens_witness :
    prepareFtsTokens (str "?!,") = [] ∧
    searchDivisions (some exDb) (str "?!,") 10 true = Except.ok ⟨[], false⟩ :=
  ⟨by decide, searchDivisions_empty_tokens (some exDb) (str "?!,") 10 true
    (by decide)⟩

/-- C4 counterexample: on a row with four distinct bounding-box
coordinates, the `boundingbox` field of the forward-search result is not
`[xmin, ymin, xmax, ymax]`. -/
theorem boundingbox_order_counterexample :
    (rowToResult cexRow).boundingbox ≠
      [cexRow.bbox_xmin, cexRow.bbox_ymin, cexRow.bbox_xmax,
        cexRow.bbox_ymax] := by
  decide

/-- C4 amended: the `boundingbox` field of every forward-search result is
`[ymin, ymax, xmin, xmax]` of the record's stored bounding box (the
Nominatim south/north/west/east convention), not `[xmin, ymin, xmax,
ymax]`. -/
theorem boundingbox_order (row : DivisionRow) :
    (rowToResult row).boundingbox =
      [row.bbox_ymin, row.bbox_ymax, row.bbox_xmin, row.bbox_xmax] := rfl

/-- C3 counterexample: `handleSearch` of `src/worker.ts` accepts a
201-character query, reaches storage, and answers 200 — there is no
query-length rejection in this worker. -/
theorem query_length_counterexample :
    200 < longQ.length ∧
    (handleSearch (some exDb) longQ 10 true).status = 200 ∧
    (handleSearch (some exDb) longQ 10 true).storageQueried = true := by
  refine ⟨by decide, ?_, ?_⟩ <;> decide

lemma wRowPop0_boost :
    wRowPop0.boosted_score = boostedScore wRowPop0.bm25 wRowPop0.population := by
  show (0 : ℝ) = boostedScore 0 (some 0)
  simp [boostedScore, Real.logb_one]

lemma wRowPop9_boost :
    wRowPop9.boosted_score = boostedScore wRowPop9.bm25 wRowPop9.population := by
  show (-2 : ℝ) = boostedScore 0 (some 9)
  simp only [boostedScore]
  rw [show ((9 : Nat) : ℝ) + 1 = 10 by norm_num]
  rw [Real.logb_self_eq_one (by norm_num)]
  norm_num

/-- C5: among rows of the divisions query with equal `bm25` relevance and
populations both present, the larger population gives the strictly lower
boosted score, and in the result list — which the query orders ascending
by boosted score — that row comes strictly earlier. -/
theorem boosted_population_ranking (rows : List DivisionRow)
    (hsorted : rows.Sorted (fun a b => a.boosted_score ≤ b.boosted_score))
    (hboost : ∀ r ∈ rows, r.boosted_score = boostedScore r.bm25 r.population)
    (i j : Nat) (hi : i < rows.length) (hj : j < rows.length)
    (r1 r2 : DivisionRow)
    (h1 : rows.get ⟨i, hi⟩ = r1) (h2 : rows.get ⟨j, hj⟩ = r2)
    (hbase : r1.bm25 = r2.bm25)
    (p1 p2 : Nat) (hp1 : r1.population = some p1)
    (hp2 : r2.population = some p2) (hp : p1 < p2) :
    r2.boosted_score < r1.boosted_score ∧ j < i := by
  have hg1 : rows[i] = r1 := h1
  have hg2 : rows[j] = r2 := h2
  have hmem1 : r1 ∈ rows := hg1 ▸ List.getElem_mem hi
  have hmem2 : r2 ∈ rows := hg2 ▸ List.getElem_mem hj
  have hlt : r2.boosted_score < r1.boosted_score := by
    rw [hboost r1 hmem1, hboost r2 hmem2, hp1, hp2, hbase]
    simp only [boostedScore]
    have hlog : Real.logb 10 ((p1 : ℝ) + 1) < Real.logb 10 ((p2 : ℝ) + 1) := by
      have hcast : (p1 : ℝ) < (p2 : ℝ) := Nat.cast_lt.mpr hp
      exact Real.logb_lt_logb (by norm_num) (by positivity) (by linarith)
    linarith
  refine ⟨hlt, ?_⟩
  by_contra hji
  push_neg at hji
  rcases eq_or_lt_of_le hji with heq | hij
  · have : r1 = r2 := by
      rw [← h1, ← h2]
      congr 1
      exact Fin.ext heq
    rw [this] at hlt
    exact lt_irrefl _ hlt
  · have hle := List.pairwise_iff_getElem.mp hsorted i j hi hj hij
    rw [hg1, hg2] at hle
    exact absurd hle (not_le.mpr hlt)

/-- Witness for C5 at two concrete rows with equal relevance 0 and
populations 0 and 9, listed in ascending boosted-score order. -/
theorem boosted_population_ranking_witness :
    wRowPop9.boosted_score < wRowPop0.boosted_score ∧ 0 < 1 :=
  boosted_population_ranking [wRowPop9, wRowPop0]
    (by
      constructor
      · intro b hb
        rcases List.mem_singleton.mp hb with rfl
        show (-2 : ℝ) ≤ 0
        norm_num
      · exact List.sorted_singleton _)
    (by
      intro r hr
      rcases List.mem_cons.mp hr with rfl | hr2
      · exact wRowPop9_boost
      · rcases List.mem_singleton.mp hr2 with rfl
        exact wRowPop0_boost)
    1 0 (by norm_num) (by norm_num) wRowPop0 wRowPop9 rfl rfl rfl
    0 9 rfl rfl (by norm_num)

lemma dedupBySubtype_subset :
    ∀ (l : List DivisionReverseRow) (seen : List JsStr)
      (d : DivisionReverseRow), d ∈ dedupBySubtype l seen → d ∈ l := by
  intro l
  induction l with
  | nil => intro seen d h; simp [dedupBySubtype] at h
  | cons a t ih =>
    intro seen d h
    simp only [dedupBySubtype] at h
    by_cases ha : a.subtype ∈ seen
    · rw [if_pos ha] at h
      exact List.mem_cons_of_mem a (ih seen d h)
    · rw [if_neg ha] at h
      rcases List.mem_cons.mp h with rfl | h2
      · exact List.mem_cons_self _ _
      · exact List.mem_cons_of_mem a (ih _ d h2)

lemma dedupBySubtype_not_seen :
    ∀ (l : List DivisionReverseRow) (seen : List JsStr)
      (d : DivisionReverseRow), d ∈ dedupBySubtype l seen →
        d.subtype ∉ seen := by
  intro l
  induction l with
  | nil => intro seen d h; simp [dedupBySubtype] at h
  | cons a t ih =>
    intro seen d h
    simp only [dedupBySubtype] at h
    by_cases ha : a.subtype ∈ seen
    · rw [if_pos ha] at h
      exact ih seen d h
    · rw [if_neg ha] at h
      rcases List.mem_cons.mp h with rfl | h2
      · exact ha
      · intro hmem
        exact ih _ d h2 (List.mem_cons_of_mem _ hmem)

lemma dedupBySubtype_minimal :
    ∀ (l : List DivisionReverseRow) (seen : List JsStr),
      l.Pairwise (fun a b => a.area ≤ b.area) →
      ∀ d ∈ dedupBySubtype l seen, ∀ e ∈ l, e.subtype = d.subtype →
        d.area ≤ e.area := by
  intro l
  induction l with
  | nil => intro seen _ d hd; simp [dedupBySubtype] at hd
  | cons a t ih =>
    intro seen hsort d hd e he hsub
    rcases List.pairwise_cons.mp hsort with ⟨hale, hsort'⟩
    simp only [dedupBySubtype] at hd
    by_cases ha : a.subtype ∈ seen
    · rw [if_pos ha] at hd
      have hdn := dedupBySubtype_not_seen t seen d hd
      rcases List.mem_cons.mp he with rfl | he2
      · exact absurd (hsub ▸ ha) hdn
      · exact ih seen hsort' d hd e he2 hsub
    · rw [if_neg ha] at hd
      rcases List.mem_cons.mp hd with rfl | hd2
      · rcases List.mem_cons.mp he with rfl | he2
        · exact le_refl _
        · exact hale e he2
      · have hdn := dedupBySubtype_not_seen t (a.subtype :: seen) d hd2
        rcases List.mem_cons.mp he with rfl | he2
        · exact absurd (by rw [hsub]; exact List.mem_cons_self _ _) hdn
        · exact ih (a.subtype :: seen) hsort' d hd2 e he2 hsub

lemma mem_insertByPriority (d e : DivisionReverseRow) :
    ∀ l, e ∈ insertByPriority d l ↔ e = d ∨ e ∈ l := by
  intro l
  induction l with
  | nil => simp [insertByPriority]
  | cons a t ih =>
    simp only [insertByPriority]
    by_cases h : TYPE_PRIORITY a.subtype < TYPE_PRIORITY d.subtype
    · rw [if_pos h]
      simp only [List.mem_cons, ih]
      tauto
    · rw [if_neg h]
      simp only [List.mem_cons]

lemma mem_sortByPriority (e : DivisionReverseRow) :
    ∀ l, e ∈ sortByPriority l ↔ e ∈ l := by
  intro l
  induction l with
  | nil => simp [sortByPriority]
  | cons a t ih =>
    simp only [sortByPriority]
    rw [mem_insertByPriority]
    simp [ih]

/-- C10: every entry of the hierarchy built for a division comes from a
pool candidate whose area is at least the division's own area — the
hierarchy never lists a division with strictly smaller area. -/
theorem hierarchy_area_ge (currentDiv : DivisionReverseRow)
    (pool : List DivisionReverseRow) :
    ∀ e ∈ buildHierarchyForDivision currentDiv pool,
      ∃ r, r ∈ pool ∧ currentDiv.area ≤ r.area ∧ e = rowToEntry r := by
  intro e he
  simp only [buildHierarchyForDivision] at he
  rcases List.mem_map.mp he with ⟨r, hr, rfl⟩
  have hr2 : r ∈ dedupBySubtype
      (pool.filter fun div => decide (div.area ≥ currentDiv.area)) [] :=
    (mem_sortByPriority r _).mp hr
  have hr3 := dedupBySubtype_subset _ _ _ hr2
  rcases List.mem_filter.mp hr3 with ⟨hpool, harea⟩
  exact ⟨r, hpool, by simpa using harea, rfl⟩

/-- Witness for C10 on a concrete two-candidate pool. -/
theorem hierarchy_area_ge_witness :
    ∃ r, r ∈ [cexSmall, cexBig] ∧ cexBig.area ≤ r.area ∧
      rowToEntry cexBig = rowToEntry r :=
  hierarchy_area_ge cexBig [cexSmall, cexBig] (rowToEntry cexBig) (by decide)

/-- C2 counterexample: in the ascending-area pool of two same-subtype
records, the hierarchy built for the larger record contains that larger
record itself, so it is not the case that only the smaller-area record of
the pair appears in every hierarchy derived from the pool. -/
theorem hierarchy_dedup_counterexample :
    cexSmall.subtype = cexBig.subtype ∧ cexSmall.area < cexBig.area ∧
    ([cexSmall, cexBig] : List DivisionReverseRow).Sorted
      (fun a b => a.area ≤ b.area) ∧
    rowToEntry cexBig ∈ buildHierarchyForDivision cexBig [cexSmall, cexBig] :=
  ⟨rfl, by decide, by decide, by decide⟩

/-- C2 amended: in an ascending-area candidate pool with per-shard-unique
identifiers, if two records share a subtype and differ in area, then for
every result whose area filter both records pass (its area is at most the
smaller record's), the larger record never appears in that result's
hierarchy — the subtype slot is taken by a smaller-area record. -/
theorem hierarchy_dedup_smallest (pool : List DivisionReverseRow)
    (hsort : pool.Sorted (fun a b => a.area ≤ b.area))
    (hids : (pool.map (fun d => d.gers_id)).Nodup)
    (R d1 d2 : DivisionReverseRow) (_hR : R ∈ pool)
    (h1 : d1 ∈ pool) (h2 : d2 ∈ pool)
    (hsub : d1.subtype = d2.subtype) (harea : d1.area < d2.area)
    (hRa : R.area ≤ d1.area) :
    rowToEntry d2 ∉ buildHierarchyForDivision R pool := by
  intro hmem
  simp only [buildHierarchyForDivision] at hmem
  rcases List.mem_map.mp hmem with ⟨r, hr, hre⟩
  have hr2 : r ∈ dedupBySubtype
      (pool.filter fun div => decide (div.area ≥ R.area)) [] :=
    (mem_sortByPriority r _).mp hr
  have hrpool : r ∈ pool :=
    (List.mem_filter.mp (dedupBySubtype_subset _ _ _ hr2)).1
  have hid : r.gers_id = d2.gers_id := congrArg HierarchyEntry.gers_id hre
  have hrd2 : r = d2 := List.inj_on_of_nodup_map hids hrpool h2 hid
  have hfsort : (pool.filter fun div =>
      decide (div.area ≥ R.area)).Pairwise (fun a b => a.area ≤ b.area) :=
    hsort.filter _
  have hd1f : d1 ∈ pool.filter (fun div => decide (div.area ≥ R.area)) :=
    List.mem_filter.mpr ⟨h1, by simpa using le_trans hRa (le_refl _)⟩
  have hmin := dedupBySubtype_minimal _ [] hfsort r hr2 d1 hd1f
    (by rw [hsub, ← hrd2])
  rw [hrd2] at hmin
  exact absurd hmin (not_le.mpr harea)

/-- Witness for the amended C2: in the concrete pool, the hierarchy built
for the small record omits the same-subtype larger record. -/
theorem hierarchy_dedup_smallest_witness :
    rowToEntry cexBig ∉ buildHierarchyForDivision cexSmall
      [cexSmall, cexBig] :=
  hierarchy_dedup_smallest [cexSmall, cexBig] (by decide) (by decide)
    cexSmall cexSmall cexBig (by decide) (by decide) (by decide) rfl
    (by decide) (by decide)

/-- C7: `handleReverse` rejects a missing/non-numeric or out-of-range
coordinate with a 400 before any storage access, and an in-range
coordinate pair is never rejected with a 400. -/
theorem handleReverse_validation (lat lon : Option ℚ) (db : Option ReverseDb) :
    ((lat = none ∨ lon = none ∨
        (∃ la, lat = some la ∧ (la < -90 ∨ la > 90)) ∨
        (∃ lo, lon = some lo ∧ (lo < -180 ∨ lo > 180))) →
      handleReverse lat lon db = ⟨400, none, false⟩) ∧
    (∀ la lo, lat = some la → lon = some lo →
      -90 ≤ la → la ≤ 90 → -180 ≤ lo → lo ≤ 180 →
      (handleReverse lat lon db).status ≠ 400) := by
  constructor
  · rintro (rfl | rfl | ⟨la, rfl, hla⟩ | ⟨lo, rfl, hlo⟩)
    · rfl
    · cases lat <;> rfl
    · cases lon with
      | none => rfl
      | some lo =>
        simp only [handleReverse]
        rw [if_pos (by tauto)]
    · cases lat with
      | none => rfl
      | some la =>
        simp only [handleReverse]
        rw [if_pos (by tauto)]
  · intro la lo hla hlo h1 h2 h3 h4
    subst hla
    subst hlo
    simp only [handleReverse]
    rw [if_neg (by push_neg; exact ⟨h1, h2, h3, h4⟩)]
    cases db with
    | none => simp
    | some dbq =>
      cases hq : dbq la lo with
      | ok candidates =>
        simp only [hq]
        by_cases hl : candidates.length = 0 <;> simp [hl]
      | error e => simp [hq]

/-- Witness for C7: an out-of-range latitude is rejected with a 400 and no
storage access, and an in-range pair is not rejected. -/
theorem handleReverse_validation_witness :
    handleReverse (some 200) (some 0) none = ⟨400, none, false⟩ ∧
    (handleReverse (some 10) (some 20) none).status ≠ 400 :=
  ⟨(handleReverse_validation (some 200) (some 0) none).1
      (Or.inr (Or.inr (Or.inl ⟨200, rfl, Or.inr (by norm_num)⟩))),
    (handleReverse_validation (some 10) (some 20) none).2 10 20 rfl rfl
      (by norm_num) (by norm_num) (by norm_num) (by norm_num)⟩

end Worker

namespace Sharded

/-- C3 amended: the 200-character limit lives in the R2-shard worker's
`handleSearch` (not in `src/worker.ts`): there, a query longer than 200
characters that is not whitespace-only is rejected with a 400 before any
storage access. -/
theorem handleSearch_query_too_long (pipeline : JsStr → Nat) (q : JsStr)
    (ac : Bool) (hlen : 200 < q.length) (hws : trimWs q ≠ []) :
    handleSearch pipeline q ac = ⟨400, false⟩ := by
  simp only [handleSearch, if_neg hws, if_pos hlen]

/-- Witness for the amended C3 at the concrete 201-character query. -/
theorem handleSearch_query_too_long_witness :
    200 < longQ.length ∧ trimWs longQ ≠ [] ∧
    handleSearch (fun _ => 200) longQ true = ⟨400, false⟩ :=
  ⟨by decide, by decide,
    handleSearch_query_too_long (fun _ => 200) longQ true (by decide)
      (by decide)⟩

end Sharded

end Geocode
